import Mathlib

/-!
Shallow embedding of the rasterization core of the embedded-graphics
primitives `Ellipse` (src/embedded-graphics/src/primitives/ellipse.rs) and
`Polyline` (src/embedded-graphics/src/primitives/polyline.rs).

Machine integers are modelled as `Int` (Rust `i32`) and `Nat` (Rust `u32`):
overflow of the squared-coordinate arithmetic is an unchecked precondition of
the code, so the embedding uses unbounded integers.  Rust `u32`
`saturating_sub` is `Nat` truncated subtraction.  Lazy iterators are embedded
by their denotation: the finite list of all items they yield.
-/

namespace EG

/-- Integer 2D coordinate, Rust `Point { x: i32, y: i32 }`. -/
structure Point where
  x : Int
  y : Int
deriving DecidableEq, Repr

/-- Unsigned extent, Rust `Size { width: u32, height: u32 }`. -/
structure Size where
  width : Nat
  height : Nat
deriving DecidableEq, Repr

instance : Add Point := ⟨fun a b => ⟨a.x + b.x, a.y + b.y⟩⟩

instance : Sub Point := ⟨fun a b => ⟨a.x - b.x, a.y - b.y⟩⟩

/-- Rust `Point * i32` componentwise scalar multiplication. -/
instance : HMul Point Int Point := ⟨fun p n => ⟨p.x * n, p.y * n⟩⟩

/-- Rust `Point + Size`: adds the width to x and the height to y. -/
instance : HAdd Point Size Point := ⟨fun p s => ⟨p.x + s.width, p.y + s.height⟩⟩

/-- Rust `Size::saturating_sub`, componentwise: `Nat` subtraction saturates. -/
def Size.saturating_sub (a b : Size) : Size :=
  ⟨a.width - b.width, a.height - b.height⟩

/-- Axis-aligned rectangle given by top-left corner and size. -/
structure Rectangle where
  top_left : Point
  size : Size
deriving DecidableEq, Repr

/-- Modelled from the spec: the bounding-box point source
(`primitives/rectangle.rs` is not under src/) yields every integer point of
the box `[top_left, top_left+size)` in row-major order (top-to-bottom,
left-to-right), empty if the box has zero width or height. -/
def Rectangle.points (r : Rectangle) : List Point :=
  (List.range r.size.height).flatMap fun (row : Nat) =>
    (List.range r.size.width).map fun (col : Nat) =>
      ⟨r.top_left.x + (col : Int), r.top_left.y + (row : Int)⟩

/-- Uses the ellipse equation `b^2 * x^2 + a^2 * y^2 - a^2 * b^2` to decide
whether a point lies inside an ellipse centered at the origin; `size` holds
the already-squared width and height.  Direct translation of
`size_to_threshold` in ellipse.rs. -/
def size_to_threshold (size : Size) (point : Point) (diameter : Nat) : Bool :=
  let a := size.width
  let b := size.height
  let x := point.x ^ 2
  let y := point.y ^ 2
  if a = b then
    let threshold : Int :=
      ((if diameter ≤ 4 then diameter ^ 2 - diameter / 2 else diameter ^ 2 : Nat) : Int)
    x + y < threshold
  else
    (b : Int) * x + (a : Int) * y - (b : Int) * (a : Int) ≤ 0

/-- Ellipse primitive: top-left corner of the bounding box and its size. -/
structure Ellipse where
  top_left : Point
  size : Size
deriving DecidableEq, Repr

/-- Rust `Ellipse::new`. -/
def Ellipse.new (top_left : Point) (size : Size) : Ellipse :=
  ⟨top_left, size⟩

/-- Rust `Ellipse::bounding_box` (via the `Dimensions` impl). -/
def Ellipse.bounding_box (e : Ellipse) : Rectangle :=
  ⟨e.top_left, e.size⟩

/-- Rust `Ellipse::center_2x`: the center scaled by 2, computed exactly. -/
def Ellipse.center_2x (e : Ellipse) : Point :=
  let radius := e.size.saturating_sub ⟨1, 1⟩
  e.top_left * (2 : Int) + radius

/-- Rust `Ellipse::contains` (the `ContainsPoint` impl). -/
def Ellipse.contains (e : Ellipse) (point : Point) : Bool :=
  size_to_threshold
    ⟨e.size.width ^ 2, e.size.height ^ 2⟩
    (point * (2 : Int) - e.center_2x)
    e.size.width

/-- Denotation of the `Points` iterator of ellipse.rs: `Points::next`
repeatedly runs `Iterator::find` with the containment predicate over the
bounding-box point source, which yields exactly the filtered sequence. -/
def Ellipse.points (e : Ellipse) : List Point :=
  e.bounding_box.points.filter fun p => e.contains p

/-- Modelled from the spec: `PrimitiveStyle` (style.rs is not under src/),
an optional stroke color, an unsigned stroke width and an optional fill
color. -/
structure PrimitiveStyle (C : Type) where
  stroke_color : Option C
  stroke_width : Nat
  fill_color : Option C
deriving DecidableEq, Repr

/-- Modelled from the spec: the style normalization rule, effective stroke
width is 0 whenever the stroke color is absent, else the configured value. -/
def PrimitiveStyle.effective_stroke_width {C : Type} (s : PrimitiveStyle C) : Nat :=
  if s.stroke_color.isNone then 0 else s.stroke_width

/-- Modelled from the spec: a style is fully transparent when both the
stroke color and the fill color are absent. -/
def PrimitiveStyle.is_transparent {C : Type} (s : PrimitiveStyle C) : Bool :=
  s.stroke_color.isNone && s.fill_color.isNone

/-- A shape paired with a style, Rust `Styled<T, S>`. -/
structure Styled (T S : Type) where
  primitive : T
  style : S
deriving DecidableEq, Repr

/-- A drawable pixel: a point together with a color, Rust `Pixel<C>`. -/
structure Pixel (C : Type) where
  point : Point
  color : C
deriving DecidableEq, Repr

/-- State of `StyledEllipseIterator` in ellipse.rs, with the point iterator
embedded as the list of its remaining yields. -/
structure StyledEllipseIterator (C : Type) where
  iter : List Point
  outer_size : Size
  outer_color : Option C
  inner_size : Size
  inner_color : Option C
  center : Point
  inner_width : Nat
deriving DecidableEq, Repr

/-- Direct translation of `StyledEllipseIterator::new`. -/
def StyledEllipseIterator.new {C : Type} (styled : Styled Ellipse (PrimitiveStyle C)) :
    StyledEllipseIterator C :=
  -- Always use a stroke width of 0 if no stroke color was set.
  let stroke_width := styled.style.effective_stroke_width
  let outer_size := styled.primitive.size
  let inner_size := outer_size.saturating_sub ⟨2 * stroke_width, 2 * stroke_width⟩
  let inner_width := inner_size.width
  let inner_size2 : Size := ⟨inner_size.width ^ 2, inner_size.height ^ 2⟩
  let iter := if !styled.style.is_transparent then styled.primitive.points else []
  { iter := iter
    outer_size := outer_size
    outer_color := styled.style.stroke_color
    inner_size := inner_size2
    inner_color := styled.style.fill_color
    center := styled.primitive.center_2x
    inner_width := inner_width }

/-- Denotation of `StyledEllipseIterator::next`: repeated `find_map` over the
point iterator yields exactly the `filterMap` of the classifier. -/
def StyledEllipseIterator.pixels {C : Type} (it : StyledEllipseIterator C) :
    List (Pixel C) :=
  it.iter.filterMap fun point =>
    let inner_threshold :=
      size_to_threshold it.inner_size (point * (2 : Int) - it.center) it.inner_width
    let color := if inner_threshold then it.inner_color else it.outer_color
    color.map fun color => Pixel.mk point color

/-- The full pixel stream of a styled ellipse (the `IntoIterator` impl
followed by draining the iterator). -/
def styledEllipsePixels {C : Type} (styled : Styled Ellipse (PrimitiveStyle C)) :
    List (Pixel C) :=
  (StyledEllipseIterator.new styled).pixels

/-- Modelled from the spec: the dedicated circle rasterizer
(`primitives/circle.rs` is not under src/).  A circle is given by the
top-left corner of its bounding box and its diameter. -/
structure Circle where
  top_left : Point
  diameter : Nat
deriving DecidableEq, Repr

/-- Modelled from the spec: the circle threshold of section 4.2, `diameter^2`,
reduced by `diameter / 2` (integer division) for diameters at most 4. -/
def circleThreshold (diameter : Nat) : Int :=
  ((if diameter ≤ 4 then diameter ^ 2 - diameter / 2 else diameter ^ 2 : Nat) : Int)

/-- Modelled from the spec: the circle center scaled by 2, computed the same
way as for the ellipse whose size is the circle diameter on both axes. -/
def Circle.center_2x (c : Circle) : Point :=
  c.top_left * (2 : Int) + (⟨c.diameter, c.diameter⟩ : Size).saturating_sub ⟨1, 1⟩

/-- Modelled from the spec: circle containment, `x^2 + y^2` of the
doubled-center-relative coordinates strictly below the circle threshold. -/
def Circle.contains (c : Circle) (point : Point) : Bool :=
  let q := point * (2 : Int) - c.center_2x
  q.x ^ 2 + q.y ^ 2 < circleThreshold c.diameter

/-- Modelled from the spec: bounding box of the circle. -/
def Circle.bounding_box (c : Circle) : Rectangle :=
  ⟨c.top_left, ⟨c.diameter, c.diameter⟩⟩

/-- Modelled from the spec: the interior point enumeration of the circle,
the bounding-box points filtered by containment. -/
def Circle.points (c : Circle) : List Point :=
  c.bounding_box.points.filter fun p => c.contains p

/-- Modelled from the spec: the dedicated circle rasterizer's styled pixel
stream.  Inner diameter shrinks the outer one by twice the effective stroke
width with saturating subtraction; outer interior points are classified by
inner-circle containment about the same doubled center, inside giving the
fill color and the band giving the stroke color, skipping absent colors;
fully transparent styles yield nothing. -/
def styledCirclePixels {C : Type} (styled : Styled Circle (PrimitiveStyle C)) :
    List (Pixel C) :=
  let stroke_width := styled.style.effective_stroke_width
  let inner_diameter := styled.primitive.diameter - 2 * stroke_width
  let center := styled.primitive.center_2x
  let iter := if !styled.style.is_transparent then styled.primitive.points else []
  iter.filterMap fun point =>
    let q := point * (2 : Int) - center
    let inside_inner := decide (q.x ^ 2 + q.y ^ 2 < circleThreshold inner_diameter)
    let color := if inside_inner then styled.style.fill_color else styled.style.stroke_color
    color.map fun color => Pixel.mk point color

/-- Polyline primitive: an ordered vertex sequence (the Rust borrowed slice
is embedded as the list of its elements). -/
structure Polyline where
  vertices : List Point
deriving DecidableEq, Repr

/-- Denotation of `PolylineIterator::next` after the first segment has been
loaded: the remaining output is the pending segment points followed by the
segments of the consecutive vertex pairs of the remaining vertex list.  The
segment producer is a parameter: `ThickLineIterator`
(`primitives/thick_line_iterator.rs`) is an external collaborator, `seg a b w`
standing for the list of points of the thick line from `a` to `b` of
width `w`. -/
def polylineGo (seg : Point → Point → Nat → List Point) (current : List Point) :
    List Point → List Point
  | start :: endp :: rest => current ++ polylineGo seg (seg start endp 1) (endp :: rest)
  | _ => current

/-- Denotation of `Polyline::into_iter` in polyline.rs: with fewer than two
vertices the iterator is created stopped and yields nothing; otherwise the
first segment iterator is created on the first vertex pair and the stored
vertex list is the tail. -/
def polylinePoints (seg : Point → Point → Nat → List Point) : List Point → List Point
  | v0 :: v1 :: rest => polylineGo seg (seg v0 v1 1) (v1 :: rest)
  | _ => []

/-- Denotation of `StyledPolylineIterator::next`: every call returns `None`
when the configured stroke width is zero or the stroke color is absent, so
nothing is ever pulled from the inner iterator; otherwise every polyline
point is mapped to a pixel of the stroke color. -/
def styledPolylinePixels {C : Type} (seg : Point → Point → Nat → List Point)
    (styled : Styled Polyline (PrimitiveStyle C)) : List (Pixel C) :=
  if styled.style.stroke_width = 0 then []
  else
    match styled.style.stroke_color with
    | none => []
    | some stroke_color =>
        (polylinePoints seg styled.primitive.vertices).map fun point =>
          Pixel.mk point stroke_color

/-- The binary color of the tests, used to instantiate witnesses. -/
inductive BinaryColor where
  | off
  | on
deriving DecidableEq, Repr

/-- Row widths of the lens-shaped golden pattern for the filled
20 by 10 ellipse. -/
def goldenRowWidths : List Nat := [8, 14, 18, 20, 20, 20, 20, 18, 14, 8]

/-- The golden pixel list: ten rows in row-major order, row `r` holding a
run of `goldenRowWidths[r]` pixels of the On color horizontally centered in
the 20-column raster. -/
def goldenPixels : List (Pixel BinaryColor) :=
  (List.range 10).flatMap fun (row : Nat) =>
    (List.range (goldenRowWidths.getD row 0)).map fun (i : Nat) =>
      Pixel.mk
        ⟨(((20 - goldenRowWidths.getD row 0) / 2 : Nat) : Int) + (i : Int), (row : Int)⟩
        BinaryColor.on

/-- Membership in the row-major bounding-box enumeration is exactly
membership in the half-open box. -/
lemma mem_rectangle_points (r : Rectangle) (p : Point) :
    p ∈ r.points ↔
      r.top_left.x ≤ p.x ∧ p.x < r.top_left.x + r.size.width ∧
      r.top_left.y ≤ p.y ∧ p.y < r.top_left.y + r.size.height := by
  obtain ⟨px, py⟩ := p
  unfold Rectangle.points
  simp only [List.mem_flatMap, List.mem_map, List.mem_range]
  constructor
  · rintro ⟨row, hrow, col, hcol, hp⟩
    obtain ⟨hx, hy⟩ : r.top_left.x + (col : Int) = px ∧ r.top_left.y + (row : Int) = py := by
      simpa [Point.mk.injEq] using hp
    refine ⟨?_, ?_, ?_, ?_⟩ <;> omega
  · rintro ⟨h1, h2, h3, h4⟩
    refine ⟨(py - r.top_left.y).toNat, by omega, (px - r.top_left.x).toNat, by omega, ?_⟩
    simp only [Point.mk.injEq]
    omega

/-- C1: the ellipse containment test, on the doubled-center-relative
coordinates, is the strict circle-threshold comparison when width equals
height (threshold `d^2`, reduced by `d / 2` for `d ≤ 4`), and the integer
implicit-equation test `h^2*x^2 + w^2*y^2 - w^2*h^2 ≤ 0` otherwise. -/
theorem c1_contains_threshold_spec (e : Ellipse) (p : Point) :
    e.contains p =
      (let q := p * (2 : Int) - e.center_2x
       let w := e.size.width
       let h := e.size.height
       if w = h then
         decide (q.x ^ 2 + q.y ^ 2 <
           ((if w ≤ 4 then w ^ 2 - w / 2 else w ^ 2 : Nat) : Int))
       else
         decide ((h : Int) ^ 2 * q.x ^ 2 + (w : Int) ^ 2 * q.y ^ 2 -
           (w : Int) ^ 2 * (h : Int) ^ 2 ≤ 0)) := by
  unfold Ellipse.contains size_to_threshold
  by_cases hwh : e.size.width = e.size.height
  · simp [hwh]
  · have h2 : e.size.width ^ 2 ≠ e.size.height ^ 2 := fun hsq =>
      hwh (Nat.pow_left_injective (by norm_num) hsq)
    simp only [h2, if_false, hwh]
    rw [decide_eq_decide]
    push_cast
    constructor <;> intro h <;> nlinarith [h]


set_option maxRecDepth 8000 in
/-- C5: the styled ellipse at the origin with size 20 by 10, filled with the
On color, yields exactly the lens-shaped pixel list whose ten rows have
widths 8, 14, 18, 20, 20, 20, 20, 18, 14, 8, each run horizontally centered
in its row. -/
theorem c5_golden_filled_ellipse :
    styledEllipsePixels
        ⟨Ellipse.new ⟨0, 0⟩ ⟨20, 10⟩,
         ⟨none, 0, some BinaryColor.on⟩⟩ = goldenPixels := by
  decide

/-- C9: degenerate shapes are total and empty: an ellipse with zero width or
zero height enumerates no points and draws no pixels under any style, and a
polyline with fewer than two vertices yields no points and no pixels under
any style and any segment producer. -/
theorem c9_degenerate_empty (C : Type) :
    (∀ (e : Ellipse) (style : PrimitiveStyle C),
        e.size.width = 0 ∨ e.size.height = 0 →
        e.points = [] ∧ styledEllipsePixels ⟨e, style⟩ = []) ∧
    (∀ (seg : Point → Point → Nat → List Point) (vs : List Point)
        (style : PrimitiveStyle C),
        vs.length < 2 →
        polylinePoints seg vs = [] ∧
        styledPolylinePixels seg ⟨⟨vs⟩, style⟩ = []) := by
  constructor
  · intro e style h
    have hpts : e.points = [] := by
      have hbox : e.bounding_box.points = [] := by
        unfold Rectangle.points
        rcases h with h | h <;>
          simp [Ellipse.bounding_box, h, List.eq_nil_iff_forall_not_mem]
      simp [Ellipse.points, hbox]
    refine ⟨hpts, ?_⟩
    simp [styledEllipsePixels, StyledEllipseIterator.new, StyledEllipseIterator.pixels,
      hpts, ite_self]
  · intro seg vs style h
    have hpts : polylinePoints seg vs = [] := by
      match vs with
      | [] => rfl
      | [v] => rfl
      | v0 :: v1 :: rest => simp at h; omega
    refine ⟨hpts, ?_⟩
    unfold styledPolylinePixels
    split
    · rfl
    · cases hsc : style.stroke_color <;> simp [hsc, hpts]

/-- C9 witness at a zero-height ellipse and a one-vertex polyline. -/
theorem c9_degenerate_empty_witness :
    ((Ellipse.new ⟨0, 0⟩ ⟨3, 0⟩).points = [] ∧
      styledEllipsePixels
        ⟨Ellipse.new ⟨0, 0⟩ ⟨3, 0⟩, ⟨some BinaryColor.on, 2, none⟩⟩ = []) ∧
    (polylinePoints (fun a b _ => [a, b]) [⟨5, 5⟩] = [] ∧
      styledPolylinePixels (fun a b _ => [a, b])
        ⟨⟨[⟨5, 5⟩]⟩, ⟨some BinaryColor.on, 2, none⟩⟩ = []) :=
  ⟨(c9_degenerate_empty BinaryColor).1 (Ellipse.new ⟨0, 0⟩ ⟨3, 0⟩)
      ⟨some BinaryColor.on, 2, none⟩ (Or.inr rfl),
   (c9_degenerate_empty BinaryColor).2 (fun a b _ => [a, b]) [⟨5, 5⟩]
      ⟨some BinaryColor.on, 2, none⟩ (by decide)⟩


/-- Unfolding lemma: the chaining loop emits the pending segment and then
the chained segments of the consecutive vertex pairs. -/
lemma polylineGo_eq_flatMap (seg : Point → Point → Nat → List Point) :
    ∀ (vs cur : List Point),
      polylineGo seg cur vs =
        cur ++ ((vs.zip vs.tail).flatMap fun q => seg q.1 q.2 1) := by
  intro vs
  induction vs with
  | nil => intro cur; simp [polylineGo]
  | cons s t ih =>
    intro cur
    cases t with
    | nil => simp [polylineGo]
    | cons e r =>
      rw [polylineGo, ih (seg s e 1)]
      simp [List.zip_cons_cons]

/-- C6: for at least two vertices, the polyline iterator's output is exactly
the concatenation over consecutive vertex pairs, in order, of the segment
iterator invoked with width fixed at 1; exhausted segments advance to the
next pair and the iterator stops when no pair remains, so shared vertices
may repeat and no segment point is lost. -/
theorem c6_polyline_concat_segments (seg : Point → Point → Nat → List Point)
    (vs : List Point) (h : 2 ≤ vs.length) :
    polylinePoints seg vs =
      (vs.zip vs.tail).flatMap fun q => seg q.1 q.2 1 := by
  match vs with
  | v0 :: v1 :: rest =>
    rw [polylinePoints, polylineGo_eq_flatMap]
    simp [List.zip_cons_cons]

/-- C6 witness: three concrete vertices and a concrete segment producer. -/
theorem c6_polyline_concat_segments_witness :
    2 ≤ ([⟨0, 0⟩, ⟨2, 1⟩, ⟨5, 5⟩] : List Point).length ∧
    polylinePoints (fun a b _ => [a, b]) [⟨0, 0⟩, ⟨2, 1⟩, ⟨5, 5⟩] =
      (([⟨0, 0⟩, ⟨2, 1⟩, ⟨5, 5⟩] : List Point).zip
          ([⟨0, 0⟩, ⟨2, 1⟩, ⟨5, 5⟩] : List Point).tail).flatMap
        fun q => [q.1, q.2] :=
  ⟨by decide,
   c6_polyline_concat_segments (fun a b _ => [a, b])
     [⟨0, 0⟩, ⟨2, 1⟩, ⟨5, 5⟩] (by decide)⟩

/-- C7: the styled ellipse iterator's inner dimensions come from shrinking
the outer size by twice the effective stroke width on each axis with
saturating subtraction (clamping at zero), where the effective stroke width
is zero when the stroke color is absent and the configured value
otherwise. -/
theorem c7_inner_size_saturating (C : Type)
    (styled : Styled Ellipse (PrimitiveStyle C)) :
    styled.style.effective_stroke_width =
        (match styled.style.stroke_color with
         | none => 0
         | some _ => styled.style.stroke_width) ∧
    (StyledEllipseIterator.new styled).inner_width =
        styled.primitive.size.width - 2 * styled.style.effective_stroke_width ∧
    (StyledEllipseIterator.new styled).inner_size.width =
        (styled.primitive.size.width - 2 * styled.style.effective_stroke_width) ^ 2 ∧
    (StyledEllipseIterator.new styled).inner_size.height =
        (styled.primitive.size.height - 2 * styled.style.effective_stroke_width) ^ 2 ∧
    (styled.primitive.size.width ≤ 2 * styled.style.effective_stroke_width →
        (StyledEllipseIterator.new styled).inner_width = 0) ∧
    (styled.primitive.size.height ≤ 2 * styled.style.effective_stroke_width →
        (StyledEllipseIterator.new styled).inner_size.height = 0) := by
  refine ⟨?_, rfl, rfl, rfl, ?_, ?_⟩
  · unfold PrimitiveStyle.effective_stroke_width
    cases styled.style.stroke_color <;> simp
  · intro h
    show styled.primitive.size.width - 2 * styled.style.effective_stroke_width = 0
    omega
  · intro h
    show (styled.primitive.size.height - 2 * styled.style.effective_stroke_width) ^ 2 = 0
    have : styled.primitive.size.height - 2 * styled.style.effective_stroke_width = 0 := by
      omega
    simp [this]

/-- C7 witness: a 3 by 5 ellipse with a wide stroke clamps to inner size
zero. -/
theorem c7_inner_size_saturating_witness :
    (⟨some BinaryColor.on, 10, none⟩ : PrimitiveStyle BinaryColor).effective_stroke_width =
        (match (some BinaryColor.on : Option BinaryColor) with
         | none => 0
         | some _ => 10) ∧
    (StyledEllipseIterator.new
        ⟨Ellipse.new ⟨0, 0⟩ ⟨3, 5⟩, ⟨some BinaryColor.on, 10, none⟩⟩).inner_width = 3 - 2 * 10 ∧
    (StyledEllipseIterator.new
        ⟨Ellipse.new ⟨0, 0⟩ ⟨3, 5⟩, ⟨some BinaryColor.on, 10, none⟩⟩).inner_size.width =
      (3 - 2 * 10) ^ 2 ∧
    (StyledEllipseIterator.new
        ⟨Ellipse.new ⟨0, 0⟩ ⟨3, 5⟩, ⟨some BinaryColor.on, 10, none⟩⟩).inner_size.height =
      (5 - 2 * 10) ^ 2 ∧
    (StyledEllipseIterator.new
        ⟨Ellipse.new ⟨0, 0⟩ ⟨3, 5⟩, ⟨some BinaryColor.on, 10, none⟩⟩).inner_width = 0 ∧
    (StyledEllipseIterator.new
        ⟨Ellipse.new ⟨0, 0⟩ ⟨3, 5⟩, ⟨some BinaryColor.on, 10, none⟩⟩).inner_size.height = 0 := by
  obtain ⟨h1, h2, h3, h4, h5, h6⟩ :=
    c7_inner_size_saturating BinaryColor
      ⟨Ellipse.new ⟨0, 0⟩ ⟨3, 5⟩, ⟨some BinaryColor.on, 10, none⟩⟩
  exact ⟨h1, h2, h3, h4, h5 (by decide), h6 (by decide)⟩


/-- C8: the styled polyline draws nothing whenever the effective stroke
width is zero or the stroke color is absent, for any vertex list and any
segment producer; otherwise it maps every chained polyline point to a pixel
of the single stroke color. -/
theorem c8_styled_polyline (C : Type) (seg : Point → Point → Nat → List Point)
    (styled : Styled Polyline (PrimitiveStyle C)) :
    (styled.style.effective_stroke_width = 0 ∨ styled.style.stroke_color = none →
      styledPolylinePixels seg styled = []) ∧
    (∀ c, styled.style.stroke_color = some c → styled.style.stroke_width ≠ 0 →
      styledPolylinePixels seg styled =
        (polylinePoints seg styled.primitive.vertices).map fun p => Pixel.mk p c) := by
  constructor
  · intro h
    unfold styledPolylinePixels
    rcases h with h | h
    · unfold PrimitiveStyle.effective_stroke_width at h
      cases hsc : styled.style.stroke_color with
      | none => simp [hsc]
      | some c =>
          have hw : styled.style.stroke_width = 0 := by
            simpa [hsc] using h
          simp [hw]
    · simp [h]
  · intro c hc hw
    unfold styledPolylinePixels
    simp [hc, hw]

/-- C8 witness: an absent stroke color yields nothing even with points
available, and a present stroke color of nonzero width maps every chained
point. -/
theorem c8_styled_polyline_witness :
    styledPolylinePixels (fun a b _ => [a, b])
        ⟨⟨[⟨0, 0⟩, ⟨1, 0⟩]⟩, ⟨none, 7, some BinaryColor.on⟩⟩ = [] ∧
    styledPolylinePixels (fun a b _ => [a, b])
        ⟨⟨[⟨0, 0⟩, ⟨1, 0⟩]⟩, ⟨some BinaryColor.on, 1, none⟩⟩ =
      (polylinePoints (fun a b _ => [a, b]) [⟨0, 0⟩, ⟨1, 0⟩]).map fun p =>
        Pixel.mk p BinaryColor.on :=
  ⟨(c8_styled_polyline BinaryColor (fun a b _ => [a, b])
      ⟨⟨[⟨0, 0⟩, ⟨1, 0⟩]⟩, ⟨none, 7, some BinaryColor.on⟩⟩).1 (Or.inr rfl),
   (c8_styled_polyline BinaryColor (fun a b _ => [a, b])
      ⟨⟨[⟨0, 0⟩, ⟨1, 0⟩]⟩, ⟨some BinaryColor.on, 1, none⟩⟩).2 BinaryColor.on rfl
      (by decide)⟩

/-- C2: the styled ellipse pixel stream is empty when both colors are
absent, and otherwise classifies every interior point of the outer ellipse,
in enumeration order, by the inner containment test on the inner
squared dimensions about the same doubled center, emitting the fill color
inside, the stroke color on the band, and nothing when the selected color is
absent. -/
theorem c2_styled_ellipse_classify (C : Type)
    (styled : Styled Ellipse (PrimitiveStyle C)) :
    (StyledEllipseIterator.new styled).iter =
      (if styled.style.stroke_color.isNone && styled.style.fill_color.isNone then []
       else styled.primitive.points) ∧
    styledEllipsePixels styled =
      if styled.style.stroke_color.isNone && styled.style.fill_color.isNone then []
      else
        styled.primitive.points.filterMap fun point =>
          (if size_to_threshold
                ⟨(styled.primitive.size.width - 2 * styled.style.effective_stroke_width) ^ 2,
                 (styled.primitive.size.height - 2 * styled.style.effective_stroke_width) ^ 2⟩
                (point * (2 : Int) - styled.primitive.center_2x)
                (styled.primitive.size.width - 2 * styled.style.effective_stroke_width) then
              styled.style.fill_color
            else styled.style.stroke_color).map fun c => Pixel.mk point c := by
  unfold styledEllipsePixels StyledEllipseIterator.pixels StyledEllipseIterator.new
  unfold PrimitiveStyle.is_transparent
  cases ht : styled.style.stroke_color.isNone && styled.style.fill_color.isNone <;>
    exact ⟨by simp [ht], by simp [ht, Size.saturating_sub]⟩


/-- C4: for a point of the bounding box, containment holds exactly when the
point appears in the ellipse's interior enumeration, and that enumeration is
the row-major bounding-box sequence filtered by the containment
predicate. -/
theorem c4_contains_iff_enumerated (e : Ellipse) (p : Point)
    (hx1 : e.top_left.x ≤ p.x) (hx2 : p.x < e.top_left.x + e.size.width)
    (hy1 : e.top_left.y ≤ p.y) (hy2 : p.y < e.top_left.y + e.size.height) :
    (e.contains p = true ↔ p ∈ e.points) ∧
    e.points = e.bounding_box.points.filter fun q => e.contains q := by
  refine ⟨?_, rfl⟩
  have hbox : p ∈ e.bounding_box.points := by
    rw [mem_rectangle_points]
    exact ⟨hx1, hx2, hy1, hy2⟩
  unfold Ellipse.points
  rw [List.mem_filter]
  constructor
  · intro h
    exact ⟨hbox, h⟩
  · intro h
    exact h.2

/-- C4 witness: the point (1, 1) of the 4 by 4 ellipse at the origin. -/
theorem c4_contains_iff_enumerated_witness :
    ((Ellipse.new ⟨0, 0⟩ ⟨4, 4⟩).contains ⟨1, 1⟩ = true ↔
      (⟨1, 1⟩ : Point) ∈ (Ellipse.new ⟨0, 0⟩ ⟨4, 4⟩).points) ∧
    (Ellipse.new ⟨0, 0⟩ ⟨4, 4⟩).points =
      (Ellipse.new ⟨0, 0⟩ ⟨4, 4⟩).bounding_box.points.filter
        fun q => (Ellipse.new ⟨0, 0⟩ ⟨4, 4⟩).contains q :=
  c4_contains_iff_enumerated (Ellipse.new ⟨0, 0⟩ ⟨4, 4⟩) ⟨1, 1⟩
    (by decide) (by decide) (by decide) (by decide)

/-- The spec-modelled circle rasterizer and the ellipse rasterizer agree on
every equal-axis size, any top-left corner and any style. -/
lemma styledEllipse_eq_styledCircle {C : Type} (tl : Point) (d : Nat)
    (style : PrimitiveStyle C) :
    styledEllipsePixels ⟨⟨tl, ⟨d, d⟩⟩, style⟩ =
      styledCirclePixels ⟨⟨tl, d⟩, style⟩ := by
  have hcont : ∀ p : Point,
      (⟨tl, ⟨d, d⟩⟩ : Ellipse).contains p = Circle.contains ⟨tl, d⟩ p := by
    intro p
    unfold Ellipse.contains Circle.contains size_to_threshold circleThreshold
      Ellipse.center_2x Circle.center_2x
    simp
  have hpts : (⟨tl, ⟨d, d⟩⟩ : Ellipse).points = Circle.points ⟨tl, d⟩ := by
    unfold Ellipse.points Circle.points Ellipse.bounding_box Circle.bounding_box
    exact List.filter_congr fun p _ => hcont p
  unfold styledEllipsePixels StyledEllipseIterator.pixels StyledEllipseIterator.new
    styledCirclePixels
  simp only [hpts]
  apply List.filterMap_congr
  intro p _
  have hinner :
      size_to_threshold
          ⟨((⟨d, d⟩ : Size).saturating_sub
              ⟨2 * style.effective_stroke_width, 2 * style.effective_stroke_width⟩).width ^ 2,
           ((⟨d, d⟩ : Size).saturating_sub
              ⟨2 * style.effective_stroke_width, 2 * style.effective_stroke_width⟩).height ^ 2⟩
          (p * (2 : Int) - Circle.center_2x ⟨tl, d⟩)
          ((⟨d, d⟩ : Size).saturating_sub
              ⟨2 * style.effective_stroke_width, 2 * style.effective_stroke_width⟩).width =
        decide
          ((p * (2 : Int) - Circle.center_2x ⟨tl, d⟩).x ^ 2 +
              (p * (2 : Int) - Circle.center_2x ⟨tl, d⟩).y ^ 2 <
            circleThreshold (d - 2 * style.effective_stroke_width)) := by
    unfold size_to_threshold circleThreshold Size.saturating_sub
    simp
  simp [Size.saturating_sub, Ellipse.center_2x, Circle.center_2x] at hinner ⊢
  simp [hinner]


/-- C3: for every diameter from 1 to 49 and each of the fill-only,
stroke-width-1 and stroke-width-10 styles, the styled ellipse of equal
width and height produces exactly the pixel stream of the dedicated circle
rasterizer at that diameter and style. -/
theorem c3_circle_refinement {C : Type} (tl : Point) (c : C) (d : Nat)
    (h1 : 1 ≤ d) (h2 : d < 50) :
    (styledEllipsePixels ⟨⟨tl, ⟨d, d⟩⟩, ⟨none, 0, some c⟩⟩ =
        styledCirclePixels ⟨⟨tl, d⟩, ⟨none, 0, some c⟩⟩) ∧
    (styledEllipsePixels ⟨⟨tl, ⟨d, d⟩⟩, ⟨some c, 1, none⟩⟩ =
        styledCirclePixels ⟨⟨tl, d⟩, ⟨some c, 1, none⟩⟩) ∧
    (styledEllipsePixels ⟨⟨tl, ⟨d, d⟩⟩, ⟨some c, 10, none⟩⟩ =
        styledCirclePixels ⟨⟨tl, d⟩, ⟨some c, 10, none⟩⟩) :=
  ⟨styledEllipse_eq_styledCircle tl d _,
   styledEllipse_eq_styledCircle tl d _,
   styledEllipse_eq_styledCircle tl d _⟩

/-- C3 witness at diameter 5 and the origin. -/
theorem c3_circle_refinement_witness :
    1 ≤ 5 ∧ 5 < 50 ∧
    ((styledEllipsePixels ⟨⟨⟨0, 0⟩, ⟨5, 5⟩⟩, ⟨none, 0, some BinaryColor.on⟩⟩ =
        styledCirclePixels ⟨⟨⟨0, 0⟩, 5⟩, ⟨none, 0, some BinaryColor.on⟩⟩) ∧
      (styledEllipsePixels ⟨⟨⟨0, 0⟩, ⟨5, 5⟩⟩, ⟨some BinaryColor.on, 1, none⟩⟩ =
        styledCirclePixels ⟨⟨⟨0, 0⟩, 5⟩, ⟨some BinaryColor.on, 1, none⟩⟩) ∧
      (styledEllipsePixels ⟨⟨⟨0, 0⟩, ⟨5, 5⟩⟩, ⟨some BinaryColor.on, 10, none⟩⟩ =
        styledCirclePixels ⟨⟨⟨0, 0⟩, 5⟩, ⟨some BinaryColor.on, 10, none⟩⟩)) :=
  ⟨by decide, by decide,
   c3_circle_refinement ⟨0, 0⟩ BinaryColor.on 5 (by decide) (by decide)⟩


/-- C10: for an ellipse whose width and height are both at least 1,
every point accepted by the containment predicate lies inside the half-open
bounding box from the top-left corner to the top-left corner plus the
size. -/
theorem c10_contains_within_bbox (e : Ellipse) (p : Point)
    (hw : 1 ≤ e.size.width) (hh : 1 ≤ e.size.height)
    (hc : e.contains p = true) :
    e.top_left.x ≤ p.x ∧ p.x < e.top_left.x + e.size.width ∧
    e.top_left.y ≤ p.y ∧ p.y < e.top_left.y + e.size.height := by
  obtain ⟨⟨tlx, tly⟩, w, h⟩ := e
  simp only at hw hh hc ⊢
  have hq : (p * (2 : Int) - Ellipse.center_2x ⟨⟨tlx, tly⟩, ⟨w, h⟩⟩) =
      (⟨p.x * 2 - (tlx * 2 + ((w - 1 : Nat) : Int)),
        p.y * 2 - (tly * 2 + ((h - 1 : Nat) : Int))⟩ : Point) := rfl
  unfold Ellipse.contains size_to_threshold at hc
  rw [hq] at hc
  simp only at hc
  by_cases hwh : w ^ 2 = h ^ 2
  · have hweq : w = h := Nat.pow_left_injective (by norm_num) hwh
    rw [if_pos hwh] at hc
    simp only [decide_eq_true_eq] at hc
    have hTle : ((if w ≤ 4 then w ^ 2 - w / 2 else w ^ 2 : Nat) : Int) ≤ ((w : Int)) ^ 2 := by
      have hnat : (if w ≤ 4 then w ^ 2 - w / 2 else w ^ 2 : Nat) ≤ w ^ 2 := by
        split
        · exact Nat.sub_le _ _
        · exact le_rfl
      calc ((if w ≤ 4 then w ^ 2 - w / 2 else w ^ 2 : Nat) : Int)
          ≤ ((w ^ 2 : Nat) : Int) := by exact_mod_cast hnat
        _ = (w : Int) ^ 2 := by push_cast; ring
    set qx : Int := p.x * 2 - (tlx * 2 + ((w - 1 : Nat) : Int)) with hqx
    set qy : Int := p.y * 2 - (tly * 2 + ((h - 1 : Nat) : Int)) with hqy
    have hx2 : qx ^ 2 < (w : Int) ^ 2 := by nlinarith [sq_nonneg qy]
    have hy2 : qy ^ 2 < (w : Int) ^ 2 := by nlinarith [sq_nonneg qx]
    obtain ⟨hxa, hxb⟩ := abs_lt_of_sq_lt_sq' hx2 (by positivity)
    obtain ⟨hya, hyb⟩ := abs_lt_of_sq_lt_sq' hy2 (by positivity)
    subst hweq
    refine ⟨?_, ?_, ?_, ?_⟩ <;> omega
  · have hwne : w ≠ h := fun hcon => hwh (by rw [hcon])
    rw [if_neg hwh] at hc
    simp only [decide_eq_true_eq] at hc
    set qx : Int := p.x * 2 - (tlx * 2 + ((w - 1 : Nat) : Int)) with hqx
    set qy : Int := p.y * 2 - (tly * 2 + ((h - 1 : Nat) : Int)) with hqy
    push_cast at hc
    have hwpos : (0 : Int) < (w : Int) := by exact_mod_cast hw
    have hhpos : (0 : Int) < (h : Int) := by exact_mod_cast hh
    have hw2pos : (0 : Int) < (w : Int) ^ 2 := pow_pos hwpos 2
    have hh2pos : (0 : Int) < (h : Int) ^ 2 := pow_pos hhpos 2
    have hx1 : (h : Int) ^ 2 * qx ^ 2 ≤ (h : Int) ^ 2 * (w : Int) ^ 2 := by
      nlinarith [sq_nonneg qy]
    have hy1 : (w : Int) ^ 2 * qy ^ 2 ≤ (w : Int) ^ 2 * (h : Int) ^ 2 := by
      nlinarith [sq_nonneg qx]
    have hx2 : qx ^ 2 ≤ (w : Int) ^ 2 := le_of_mul_le_mul_left hx1 hh2pos
    have hy2 : qy ^ 2 ≤ (h : Int) ^ 2 := le_of_mul_le_mul_left hy1 hw2pos
    obtain ⟨hxa, hxb⟩ := abs_le_of_sq_le_sq' hx2 (by positivity)
    obtain ⟨hya, hyb⟩ := abs_le_of_sq_le_sq' hy2 (by positivity)
    refine ⟨?_, ?_, ?_, ?_⟩ <;> omega

/-- C10 witness: the 4 by 4 ellipse at the origin contains (1, 1), which
lies in its bounding box. -/
theorem c10_contains_within_bbox_witness :
    (0 : Int) ≤ 1 ∧ (1 : Int) < 0 + (4 : Nat) ∧ (0 : Int) ≤ 1 ∧ (1 : Int) < 0 + (4 : Nat) :=
  c10_contains_within_bbox (Ellipse.new ⟨0, 0⟩ ⟨4, 4⟩) ⟨1, 1⟩
    (by decide) (by decide) (by decide)

end EG
